import Mathlib

/-!
Shallow embedding of the roundbuilder-simulator engine
(`src/gameLogic.ts`, `src/types.ts`, and the stateful `finishById` /
`evaluateDrink` logic of `src/App.tsx`).

TypeScript `number` values are modelled as real numbers (`ℝ`); the
transcendental `Math.exp` forces the temperature model (and everything
downstream of it) to be noncomputable, so concrete evaluations in proofs
go through `simp` / `norm_num` instead of kernel reduction.

Optional TS fields (`idealDilution?`, `iceSurface?` which may also be
`null`) are modelled as `Option`: the code only observes them through
`?? default`, which treats `undefined` and `null` alike.

JavaScript `Array.prototype.sort` with a numeric comparator `cmp` is
(per ES2019) a stable sort placing `a` before `b` when `cmp a b ≤ 0`;
it is modelled by `List.mergeSort` with the boolean relation
`cmp a b ≤ 0`, which is a stable merge sort.

A JS `Map` built by successive `set` calls (later keys overwrite) is
modelled as a function `Category → Option ℕ` built by a fold.
-/

/-- `Category` from `types.ts`. -/
inductive Category where
  | STRAIGHT_UP
  | ON_THE_ROCKS
  | NON_CHILLED
deriving DecidableEq

/-- The ice-surface classes `'large' | 'standard' | 'crushed'`. -/
inductive IceSurface where
  | large
  | standard
  | crushed
deriving DecidableEq

/-- `Drink` from `types.ts`. -/
structure Drink where
  id : String
  name : String
  category : Category
  baseFinishSec : ℝ
  startTempC : ℝ
  idealDilution : Option ℝ := none
  iceSurface : Option IceSurface := none

/-- One `{ label, value }` penalty entry. -/
structure Penalty where
  label : String
  value : ℝ

/-- `FinishedDrink` from `types.ts`. -/
structure FinishedDrink where
  drink : Drink
  finishedAt : ℝ
  waitSec : ℝ
  tempC : ℝ
  dilution : Option ℝ
  penalties : List Penalty

/-- Return type of `evaluateDrink` (`Omit<FinishedDrink, 'finishedAt' | 'waitSec'>`). -/
structure EvaluatedDrink where
  drink : Drink
  tempC : ℝ
  dilution : Option ℝ
  penalties : List Penalty

/-- `tempAt` from `gameLogic.ts`:
`const t = Math.max(0, waitSec); return ambient + (T0 - ambient) * Math.exp(-t / tauSec)`. -/
noncomputable def tempAt (waitSec T0 : ℝ) (ambient : ℝ := 22) (tauSec : ℝ := 120) : ℝ :=
  let t := max 0 waitSec
  ambient + (T0 - ambient) * Real.exp (-t / tauSec)

/-- `dilutionAt` from `gameLogic.ts`: rate selected by the surface class
(`null` and `'standard'` both fall through to 0.0055), then
`Math.min(0.6, Math.max(0, waitSec * rate))`. -/
noncomputable def dilutionAt (waitSec : ℝ) (surface : Option IceSurface := some IceSurface.standard) : ℝ :=
  let rate : ℝ :=
    if surface = some IceSurface.large then 0.004
    else if surface = some IceSurface.crushed then 0.008
    else 0.0055
  min 0.6 (max 0 (waitSec * rate))

/-- `recommendedOrder` from `gameLogic.ts`. -/
def recommendedOrder : List Category :=
  [Category.NON_CHILLED, Category.ON_THE_ROCKS, Category.STRAIGHT_UP]

/-- `generateOrders` from `gameLogic.ts`: the fixed 7-drink catalog. -/
noncomputable def generateOrders : List Drink :=
  [ { id := "1", name := "Martini", category := Category.STRAIGHT_UP, baseFinishSec := 12, startTempC := -4 },
    { id := "2", name := "Manhattan", category := Category.STRAIGHT_UP, baseFinishSec := 12, startTempC := -3 },
    { id := "3", name := "Old Fashioned", category := Category.ON_THE_ROCKS, baseFinishSec := 10, startTempC := 0,
      idealDilution := some 0.33, iceSurface := some IceSurface.large },
    { id := "4", name := "Whiskey Highball", category := Category.ON_THE_ROCKS, baseFinishSec := 8, startTempC := 0,
      idealDilution := some 0.33, iceSurface := some IceSurface.standard },
    { id := "5", name := "Gin & Tonic", category := Category.ON_THE_ROCKS, baseFinishSec := 8, startTempC := 0,
      idealDilution := some 0.33, iceSurface := some IceSurface.crushed },
    { id := "6", name := "Beer", category := Category.NON_CHILLED, baseFinishSec := 5, startTempC := 6 },
    { id := "7", name := "White Wine", category := Category.NON_CHILLED, baseFinishSec := 5, startTempC := 7 } ]

/-- A JS `Map<Category, number>` built by inserting `(key, value)` pairs in
order (later insertions overwrite earlier ones), read through `.get`. -/
def insertAll (pairs : List (Category × ℕ)) (m0 : Category → Option ℕ) : Category → Option ℕ :=
  pairs.foldl (fun m p => fun c => if c = p.1 then some p.2 else m c) m0

/-- The `orderIndex` map of `sortByFinishQueue`:
`new Map(queue.map((c, i) => [c, i]))`. -/
def queueIndexMap (queue : List Category) : Category → Option ℕ :=
  insertAll (queue.enum.map (fun p => (p.2, p.1))) (fun _ => none)

/-- The sort priority of a category: `orderIndex.get(cat) ?? 99`. -/
def finishPriority (queue : List Category) (c : Category) : ℕ :=
  (queueIndexMap queue c).getD 99

/-- The comparator of `sortByFinishQueue` read as a boolean "a may come
before b" relation: the JS comparator returns `ia - ib` when the priorities
differ and `a.baseFinishSec - b.baseFinishSec` otherwise, and a stable sort
places `a` before `b` exactly when the comparator is `≤ 0`. -/
noncomputable def finishLe (queue : List Category) (a b : Drink) : Bool :=
  let ia := finishPriority queue a.category
  let ib := finishPriority queue b.category
  if ia = ib then decide (a.baseFinishSec ≤ b.baseFinishSec) else decide (ia < ib)

/-- `sortByFinishQueue` from `gameLogic.ts`: a stable sort of a copy of
`drinks` by the priority/duration comparator. -/
noncomputable def sortByFinishQueue (drinks : List Drink) (queue : List Category) : List Drink :=
  drinks.mergeSort (finishLe queue)

/-- The `pos` map of `orderPenalty`: positions of the categories in `reco`
(`reco.forEach((c, i) => pos.set(c, i))`), read with default 0 (`?? 0`). -/
def recoPos (reco : List Category) (c : Category) : ℕ :=
  (insertAll (reco.enum.map (fun p => (p.2, p.1))) (fun _ => none) c).getD 0

/-- The double loop of `orderPenalty`: for each `i`, count the later `j`
with `pos(chosen[i]) > pos(chosen[j])`. -/
def inversionCount (pos : Category → ℕ) : List Category → ℕ
  | [] => 0
  | c :: rest => rest.countP (fun c2 => decide (pos c2 < pos c)) + inversionCount pos rest

/-- `orderPenalty` from `gameLogic.ts`: `inversions * 6`. -/
noncomputable def orderPenalty (reco chosen : List Category) : ℝ :=
  (inversionCount (recoPos reco) chosen : ℝ) * 6

/-- Penalty labels used by the engine (verbatim from the source). -/
def warmStraightLabel : String := "Тёплый straight-up (>0°C)"

/-- Penalty label of the on-the-rocks dilution penalty. -/
def dilutionOffLabel : String := "Разбавление не по цели"

/-- Penalty label of the non-chilled lost-chill penalty. -/
def lostChillLabel : String := "Потеря холода напитка без льда"

/-- Breakdown label of the round-level window penalty. -/
def windowLabel : String := "Длинное окно между первым/последним"

/-- Breakdown label of the round-level ordering penalty. -/
def orderLabel : String := "Порядок категорий не оптимален"

/-- Result record of `scoreRound`. -/
structure ScoreResult where
  score : ℝ
  breakdown : List Penalty

/-- `scoreRound` from `gameLogic.ts`. The imperative mutations
(`score = 100`, conditional pushes and subtractions, the nested penalty
loop, final clamp) are serialized into a chain of lets; the nested
`for` loops become nested `foldl`s. -/
noncomputable def scoreRound (finished : List FinishedDrink) (windowSec : ℝ)
    (chosenOrder : List Category) : ScoreResult :=
  let score1 : ℝ := 100
  let score2 := if windowSec > 60 then score1 - (windowSec - 60) * 0.2 else score1
  let breakdown1 : List Penalty :=
    if windowSec > 60 then [{ label := windowLabel, value := (windowSec - 60) * 0.2 }] else []
  let badOrder := orderPenalty recommendedOrder chosenOrder
  let score3 := if badOrder > 0 then score2 - badOrder else score2
  let breakdown2 :=
    if badOrder > 0 then breakdown1 ++ [{ label := orderLabel, value := badOrder }] else breakdown1
  let score4 := finished.foldl (fun acc f => f.penalties.foldl (fun acc2 p => acc2 - p.value) acc) score3
  { score := max 0 (min 100 score4), breakdown := breakdown2 }

/-- `evaluateDrink` from `App.tsx`: category-dispatched evaluation of one
drink after waiting `wait` seconds. The source initializes
`temp = d.startTempC`, `dilution = undefined` and overwrites them per
branch; each match arm below records the branch outcome. -/
noncomputable def evaluateDrink (d : Drink) (wait : ℝ) : EvaluatedDrink :=
  match d.category with
  | Category.STRAIGHT_UP =>
      let temp := tempAt wait d.startTempC 22 120
      { drink := d, tempC := temp, dilution := none,
        penalties :=
          if temp > 0 then [{ label := warmStraightLabel, value := temp / 10 * 12 }] else [] }
  | Category.ON_THE_ROCKS =>
      let dil := dilutionAt wait (some (d.iceSurface.getD IceSurface.standard))
      let ideal := (d.idealDilution.getD 0.33 : ℝ)
      let delta := |dil - ideal|
      { drink := d, tempC := d.startTempC, dilution := some dil,
        penalties := [{ label := dilutionOffLabel, value := delta * 80 }] }
  | Category.NON_CHILLED =>
      let temp := tempAt wait d.startTempC 22 240
      { drink := d, tempC := temp, dilution := none,
        penalties :=
          if temp > 12 then [{ label := lostChillLabel, value := (temp - 10) * 2 }] else [] }

/-- The per-drink body of the loop in `simulateFinish` (`gameLogic.ts`),
which duplicates the evaluation logic of `evaluateDrink` inline and
recomputes the dilution for the `dilution` field. -/
noncomputable def simStep (clock : ℝ) (d : Drink) : FinishedDrink :=
  let wait := clock
  let clockAfter := clock + d.baseFinishSec
  let tp : ℝ × List Penalty :=
    match d.category with
    | Category.STRAIGHT_UP =>
        let temp := tempAt wait d.startTempC 22 120
        (temp, if temp > 0 then [{ label := warmStraightLabel, value := temp / 10 * 12 }] else [])
    | Category.ON_THE_ROCKS =>
        let dil := dilutionAt wait (some (d.iceSurface.getD IceSurface.standard))
        let ideal := (d.idealDilution.getD 0.33 : ℝ)
        let delta := |dil - ideal|
        (d.startTempC, [{ label := dilutionOffLabel, value := delta * 80 }])
    | Category.NON_CHILLED =>
        let temp := tempAt wait d.startTempC 22 240
        (temp, if temp > 12 then [{ label := lostChillLabel, value := (temp - 10) * 2 }] else [])
  let dilution : Option ℝ :=
    match d.category with
    | Category.ON_THE_ROCKS => some (dilutionAt wait (some (d.iceSurface.getD IceSurface.standard)))
    | _ => none
  { drink := d, finishedAt := clockAfter, waitSec := wait, tempC := tp.1,
    dilution := dilution, penalties := tp.2 }

/-- The loop of `simulateFinish`: walk the drinks with a running clock. -/
noncomputable def simulateFinishAux (clock : ℝ) : List Drink → List FinishedDrink
  | [] => []
  | d :: rest => simStep clock d :: simulateFinishAux (clock + d.baseFinishSec) rest

/-- Result record of `simulateFinish`. -/
structure SimResult where
  finished : List FinishedDrink
  totalSec : ℝ
  windowSec : ℝ

/-- `Math.max(...ts)` over a nonempty list `t :: ts`. -/
noncomputable def listMaxD (t : ℝ) (ts : List ℝ) : ℝ := ts.foldl max t

/-- `Math.min(...ts)` over a nonempty list `t :: ts`. -/
noncomputable def listMinD (t : ℝ) (ts : List ℝ) : ℝ := ts.foldl min t

/-- `simulateFinish` from `gameLogic.ts`. `totalSec` is the final clock
value; `windowSec` is `max(finishTimes) - min(finishTimes)` when the list
of finish times is nonempty and 0 otherwise. -/
noncomputable def simulateFinish (drinksInOrder : List Drink) : SimResult :=
  let finished := simulateFinishAux 0 drinksInOrder
  let totalSec := (0 : ℝ) + (drinksInOrder.map Drink.baseFinishSec).sum
  let finishTimes := finished.map FinishedDrink.finishedAt
  let windowSec :=
    match finishTimes with
    | [] => 0
    | t :: ts => listMaxD t ts - listMinD t ts
  { finished := finished, totalSec := totalSec, windowSec := windowSec }

/-- UI phases of `App.tsx`. -/
inductive Phase where
  | SETUP
  | RUNNING
  | RESULTS
deriving DecidableEq

/-- The `result` record set at the end of a round in `App.tsx`. -/
structure RoundResult where
  score : ℝ
  windowSec : ℝ
  totalSec : ℝ
  breakdown : List Penalty

/-- The React state owned by `App.tsx` while a round runs. -/
structure RoundState where
  phase : Phase
  queue : List Category
  clock : ℝ
  remaining : List Drink
  timeline : List FinishedDrink
  result : Option RoundResult

/-- `remaining.findIndex(d => d.id === id)` followed by
`[...remaining.slice(0, idx), ...remaining.slice(idx + 1)]`: extract the
first drink with the given id, keeping the rest in order. -/
def extractById (id : String) : List Drink → Option (Drink × List Drink)
  | [] => none
  | d :: rest =>
      if d.id == id then some (d, rest)
      else
        match extractById id rest with
        | none => none
        | some (x, l) => some (x, d :: l)

/-- The window computation of `finishById`:
`tl.length > 1 ? tl[tl.length - 1].finishedAt - tl[0].finishedAt : 0`. -/
noncomputable def windowOf (tl : List FinishedDrink) : ℝ :=
  match tl with
  | [] => 0
  | f :: rest => if rest.isEmpty then 0 else (rest.getLastD f).finishedAt - f.finishedAt

/-- `finishById` from `App.tsx` as a state transition: a missing id is a
no-op; otherwise the drink is evaluated at the current clock, moved from
`remaining` to the end of `timeline`, the clock advances by its finish
duration, and when nothing remains the round result is computed and the
phase flips to RESULTS. -/
noncomputable def finishById (s : RoundState) (id : String) : RoundState :=
  match extractById id s.remaining with
  | none => s
  | some (d, nextRemaining) =>
      let wait := s.clock
      let evald := evaluateDrink d wait
      let finishedAt := s.clock + d.baseFinishSec
      let finished : FinishedDrink :=
        { drink := evald.drink, finishedAt := finishedAt, waitSec := wait,
          tempC := evald.tempC, dilution := evald.dilution, penalties := evald.penalties }
      let nextTimeline := s.timeline ++ [finished]
      if nextRemaining.isEmpty then
        let totalSec := finishedAt
        let windowSec := windowOf nextTimeline
        let sr := scoreRound nextTimeline windowSec s.queue
        { s with phase := Phase.RESULTS, clock := finishedAt, remaining := nextRemaining,
                 timeline := nextTimeline,
                 result := some { score := sr.score, windowSec := windowSec,
                                  totalSec := totalSec, breakdown := sr.breakdown } }
      else
        { s with clock := finishedAt, remaining := nextRemaining, timeline := nextTimeline }

/-! Specification-side definitions, written from the spec's wording and
only used in theorem statements. -/

/-- Position of a category in the recommended order stated by the spec:
non-chilled first, on-ice second, no-ice-cold last. -/
def recPos : Category → ℕ
  | Category.NON_CHILLED => 0
  | Category.ON_THE_ROCKS => 1
  | Category.STRAIGHT_UP => 2

/-- Number of category pairs of `l` whose relative order disagrees with
the recommended order: pairs (earlier, later) with a strictly larger
recommended position earlier. -/
def specInversions : List Category → ℕ
  | [] => 0
  | a :: rest => (rest.filter (fun b => decide (recPos b < recPos a))).length + specInversions rest

/-- Total per-drink penalty mass of a finished timeline. -/
def penaltyTotal (finished : List FinishedDrink) : ℝ :=
  (finished.map (fun f => (f.penalties.map Penalty.value).sum)).sum

/-! Helper lemmas shared by several claims. -/

theorem foldl_sub_penalties (l : List Penalty) (a : ℝ) :
    l.foldl (fun acc p => acc - p.value) a = a - (l.map Penalty.value).sum := by
  induction l generalizing a with
  | nil => simp
  | cons p rest ih => simp [List.foldl_cons, ih]; ring

theorem foldl_sub_finished (l : List FinishedDrink) (a : ℝ) :
    l.foldl (fun acc f => f.penalties.foldl (fun acc2 p => acc2 - p.value) acc) a
      = a - penaltyTotal l := by
  induction l generalizing a with
  | nil => simp [penaltyTotal]
  | cons f rest ih =>
      rw [List.foldl_cons, ih, foldl_sub_penalties]
      simp only [penaltyTotal, List.map_cons, List.sum_cons]
      ring

theorem scoreRound_eq (finished : List FinishedDrink) (w : ℝ) (q : List Category) :
    scoreRound finished w q =
      { score := max 0 (min 100 (100 - (if w > 60 then (w - 60) * 0.2 else 0)
            - (if orderPenalty recommendedOrder q > 0 then orderPenalty recommendedOrder q else 0)
            - penaltyTotal finished)),
        breakdown :=
          (if w > 60 then [{ label := windowLabel, value := (w - 60) * 0.2 }] else [])
          ++ (if orderPenalty recommendedOrder q > 0 then
                [{ label := orderLabel, value := orderPenalty recommendedOrder q }] else []) } := by
  simp only [scoreRound, foldl_sub_finished]
  split_ifs with h1 h2 h2 <;>
    rw [ScoreResult.mk.injEq] <;>
    exact ⟨by ring_nf, by simp⟩

/-- C1: the per-drink evaluation dispatches on the drink's category: a
STRAIGHT_UP drink gets temperature `tempAt wait startTemp 22 120` and a
penalty of magnitude `temperature / 10 * 12` exactly when that temperature
exceeds 0 °C; an ON_THE_ROCKS drink gets dilution
`dilutionAt wait (iceSurface defaulting to standard)` and always exactly one
penalty of magnitude `|dilution - idealDilution (default 0.33)| * 80`, with
the temperature left unpenalized; a NON_CHILLED drink gets temperature
`tempAt wait startTemp 22 240` and a penalty of magnitude
`(temperature - 10) * 2` exactly when that temperature exceeds 12 °C. -/
theorem evaluateDrink_dispatch (d : Drink) (wait : ℝ) :
    (d.category = Category.STRAIGHT_UP →
      (evaluateDrink d wait).tempC = tempAt wait d.startTempC 22 120 ∧
      (0 < tempAt wait d.startTempC 22 120 →
        (evaluateDrink d wait).penalties =
          [{ label := warmStraightLabel, value := tempAt wait d.startTempC 22 120 / 10 * 12 }]) ∧
      (¬ 0 < tempAt wait d.startTempC 22 120 → (evaluateDrink d wait).penalties = [])) ∧
    (d.category = Category.ON_THE_ROCKS →
      (evaluateDrink d wait).dilution =
        some (dilutionAt wait (some (d.iceSurface.getD IceSurface.standard))) ∧
      (evaluateDrink d wait).penalties =
        [{ label := dilutionOffLabel,
           value := |dilutionAt wait (some (d.iceSurface.getD IceSurface.standard))
                      - d.idealDilution.getD 0.33| * 80 }]) ∧
    (d.category = Category.NON_CHILLED →
      (evaluateDrink d wait).tempC = tempAt wait d.startTempC 22 240 ∧
      (12 < tempAt wait d.startTempC 22 240 →
        (evaluateDrink d wait).penalties =
          [{ label := lostChillLabel, value := (tempAt wait d.startTempC 22 240 - 10) * 2 }]) ∧
      (¬ 12 < tempAt wait d.startTempC 22 240 → (evaluateDrink d wait).penalties = [])) := by
  refine ⟨fun h => ?_, fun h => ?_, fun h => ?_⟩
  · by_cases hc : 0 < tempAt wait d.startTempC 22 120 <;> simp [evaluateDrink, h, hc]
  · simp [evaluateDrink, h]
  · by_cases hc : 12 < tempAt wait d.startTempC 22 240 <;> simp [evaluateDrink, h, hc]

/-- A sample straight-up drink (the catalog's Martini), for witnesses. -/
noncomputable def sampleStraightUp : Drink :=
  { id := "1", name := "Martini", category := Category.STRAIGHT_UP, baseFinishSec := 12, startTempC := -4 }

theorem tempAt_zero (T0 ambient tauSec : ℝ) : tempAt 0 T0 ambient tauSec = T0 := by
  simp [tempAt]

/-- Witness for C1 at the catalog's Martini with wait 0: its serving
temperature is the model temperature and, being at -4 °C, it takes no
penalty. -/
theorem evaluateDrink_dispatch_witness :
    (evaluateDrink sampleStraightUp 0).tempC = tempAt 0 sampleStraightUp.startTempC 22 120 ∧
    (evaluateDrink sampleStraightUp 0).penalties = [] := by
  have h := (evaluateDrink_dispatch sampleStraightUp 0).1 rfl
  refine ⟨h.1, h.2.2 ?_⟩
  rw [tempAt_zero]
  norm_num [sampleStraightUp]

/-- C2: `scoreRound` starts from 100 points, deducts the window penalty and
the ordering penalty as the only two round-level breakdown entries, then
subtracts every penalty magnitude of every finished drink (per-drink
penalties are not itemized in the round-level breakdown), and the returned
score always lies in [0, 100]. -/
theorem scoreRound_total_and_clamped (finished : List FinishedDrink) (w : ℝ) (q : List Category) :
    (scoreRound finished w q).score
      = max 0 (min 100 (100 - (if w > 60 then (w - 60) * 0.2 else 0)
          - (if orderPenalty recommendedOrder q > 0 then orderPenalty recommendedOrder q else 0)
          - penaltyTotal finished)) ∧
    (scoreRound finished w q).breakdown
      = (if w > 60 then [{ label := windowLabel, value := (w - 60) * 0.2 }] else [])
        ++ (if orderPenalty recommendedOrder q > 0 then
              [{ label := orderLabel, value := orderPenalty recommendedOrder q }] else []) ∧
    0 ≤ (scoreRound finished w q).score ∧ (scoreRound finished w q).score ≤ 100 := by
  rw [scoreRound_eq]
  exact ⟨rfl, rfl, le_max_left 0 _, max_le (by norm_num) (min_le_left 100 _)⟩

theorem recoPos_recommended (c : Category) : recoPos recommendedOrder c = recPos c := by
  cases c <;> rfl

theorem inversionCount_recommended (l : List Category) :
    inversionCount (recoPos recommendedOrder) l = specInversions l := by
  induction l with
  | nil => rfl
  | cons a rest ih =>
      have hf : rest.filter (fun c2 => decide (recoPos recommendedOrder c2 < recoPos recommendedOrder a))
          = rest.filter (fun b => decide (recPos b < recPos a)) := by
        apply List.filter_congr
        intro b _
        simp [recoPos_recommended]
      rw [inversionCount, List.countP_eq_length_filter, hf, ih, specInversions]

theorem specInversions_eq_zero_iff (l : List Category) :
    specInversions l = 0 ↔ List.Pairwise (fun a b => recPos a ≤ recPos b) l := by
  induction l with
  | nil => simp [specInversions]
  | cons a rest ih =>
      simp only [specInversions, Nat.add_eq_zero, List.length_eq_zero,
        List.filter_eq_nil_iff, List.pairwise_cons, ih]
      constructor
      · rintro ⟨h1, h2⟩
        exact ⟨fun b hb => by simpa using Nat.le_of_not_lt (by simpa using h1 b hb), h2⟩
      · rintro ⟨h1, h2⟩
        exact ⟨fun b hb => by simp [Nat.not_lt.mpr (h1 b hb)], h2⟩

theorem windowLabel_ne_orderLabel : windowLabel ≠ orderLabel := by
  decide

theorem orderPenalty_eq_zero_iff (chosen : List Category) :
    orderPenalty recommendedOrder chosen = 0 ↔ specInversions chosen = 0 := by
  rw [orderPenalty, inversionCount_recommended]
  constructor
  · intro h
    rcases mul_eq_zero.mp h with h' | h'
    · exact_mod_cast h'
    · norm_num at h'
  · intro h
    rw [h]
    norm_num

theorem orderPenalty_pos_iff (chosen : List Category) :
    orderPenalty recommendedOrder chosen > 0 ↔ specInversions chosen ≠ 0 := by
  rw [orderPenalty, inversionCount_recommended]
  constructor
  · intro h h0
    rw [h0] at h
    norm_num at h
  · intro h
    have : 0 < specInversions chosen := Nat.pos_of_ne_zero h
    positivity

/-- C3: the ordering penalty is 6 times the number of category-pair
inversions of the chosen queue relative to the fixed recommended order
(NON_CHILLED, then ON_THE_ROCKS, then STRAIGHT_UP); it is 0 exactly when
the queue's categories appear in the recommended relative order, and the
ordering entry is omitted from the round breakdown exactly in that case. -/
theorem orderPenalty_spec (chosen : List Category) :
    orderPenalty recommendedOrder chosen = 6 * (specInversions chosen : ℝ) ∧
    (orderPenalty recommendedOrder chosen = 0 ↔
      List.Pairwise (fun a b => recPos a ≤ recPos b) chosen) ∧
    (∀ (finished : List FinishedDrink) (w : ℝ),
      (∀ e ∈ (scoreRound finished w chosen).breakdown, e.label ≠ orderLabel) ↔
        List.Pairwise (fun a b => recPos a ≤ recPos b) chosen) := by
  refine ⟨by rw [orderPenalty, inversionCount_recommended]; ring, ?_, ?_⟩
  · rw [orderPenalty_eq_zero_iff, specInversions_eq_zero_iff]
  · intro finished w
    rw [← specInversions_eq_zero_iff]
    rw [scoreRound_eq]
    constructor
    · intro h
      by_contra h0
      have hpos := (orderPenalty_pos_iff chosen).mpr h0
      have hmem : ({ label := orderLabel, value := orderPenalty recommendedOrder chosen } : Penalty)
          ∈ (if w > 60 then [{ label := windowLabel, value := (w - 60) * 0.2 }] else [])
            ++ (if orderPenalty recommendedOrder chosen > 0 then
                  [{ label := orderLabel, value := orderPenalty recommendedOrder chosen }] else []) := by
        rw [if_pos hpos]
        simp
      exact h _ hmem rfl
    · intro h0 e he
      have hnpos : ¬ orderPenalty recommendedOrder chosen > 0 := by
        rw [orderPenalty_pos_iff]
        simp [h0]
      simp only [if_neg hnpos, List.append_nil] at he
      split at he
      · simp only [List.mem_singleton] at he
        rw [he]
        exact windowLabel_ne_orderLabel
      · simp at he

/-- C4: a window-penalty breakdown entry of magnitude
`(windowSeconds - 60) * 0.2` is added and deducted exactly when
`windowSeconds > 60`; for every `windowSeconds ≤ 60`, including exactly 60,
no window entry appears and the window contributes nothing (the result is
the same as at the 60-second boundary). -/
theorem scoreRound_window_boundary (finished : List FinishedDrink) (w : ℝ) (q : List Category) :
    (60 < w →
      ({ label := windowLabel, value := (w - 60) * 0.2 } : Penalty)
          ∈ (scoreRound finished w q).breakdown ∧
      (scoreRound finished w q).score
        = max 0 (min 100 (100 - (w - 60) * 0.2
            - (if orderPenalty recommendedOrder q > 0 then orderPenalty recommendedOrder q else 0)
            - penaltyTotal finished))) ∧
    (w ≤ 60 →
      (∀ e ∈ (scoreRound finished w q).breakdown, e.label ≠ windowLabel) ∧
      scoreRound finished w q = scoreRound finished 60 q) := by
  constructor
  · intro h
    rw [scoreRound_eq]
    constructor
    · simp [h]
    · simp [h]
  · intro h
    have hn : ¬ (w > 60) := not_lt.mpr h
    constructor
    · rw [scoreRound_eq]
      intro e he
      simp only [if_neg hn, List.nil_append] at he
      split at he
      · simp only [List.mem_singleton] at he
        rw [he]
        exact fun hh => windowLabel_ne_orderLabel hh.symm
      · simp at he
    · rw [scoreRound_eq, scoreRound_eq]
      have h60 : ¬ ((60 : ℝ) > 60) := by norm_num
      simp [hn, h60]

/-- Witness for C4 at windowSeconds 70 > 60, an empty timeline and queue. -/
theorem scoreRound_window_boundary_witness :
    ({ label := windowLabel, value := ((70 : ℝ) - 60) * 0.2 } : Penalty)
        ∈ (scoreRound [] 70 []).breakdown ∧
    (scoreRound [] (70 : ℝ) []).score
      = max 0 (min 100 (100 - ((70 : ℝ) - 60) * 0.2
          - (if orderPenalty recommendedOrder [] > 0 then orderPenalty recommendedOrder [] else 0)
          - penaltyTotal [])) :=
  (scoreRound_window_boundary [] 70 []).1 (by norm_num)

theorem dilutionAt_large (w : ℝ) :
    dilutionAt w (some IceSurface.large) = min 0.6 (max 0 (w * 0.004)) := by
  simp [dilutionAt]

theorem dilutionAt_standard (w : ℝ) :
    dilutionAt w (some IceSurface.standard) = min 0.6 (max 0 (w * 0.0055)) := by
  simp [dilutionAt]

theorem dilutionAt_crushed (w : ℝ) :
    dilutionAt w (some IceSurface.crushed) = min 0.6 (max 0 (w * 0.008)) := by
  simp [dilutionAt]

theorem dilutionAt_null (w : ℝ) :
    dilutionAt w none = min 0.6 (max 0 (w * 0.0055)) := by
  simp [dilutionAt]

/-- C5 counterexample: at wait 150 s the large-ice and crushed-ice dilutions
are both clamped to 0.6, so "strictly lower for every identical positive
wait time" fails. -/
theorem dilutionAt_strict_counterexample :
    ¬ (∀ w : ℝ, 0 < w →
        dilutionAt w (some IceSurface.large) < dilutionAt w (some IceSurface.crushed)) := by
  intro h
  have h150 := h 150 (by norm_num)
  rw [dilutionAt_large, dilutionAt_crushed] at h150
  have hl : min (0.6 : ℝ) (max 0 (150 * 0.004)) = 0.6 := by norm_num
  have hc : min (0.6 : ℝ) (max 0 (150 * 0.008)) = 0.6 := by norm_num
  rw [hl, hc] at h150
  exact lt_irrefl _ h150

/-- C5 (amended): for every wait and surface class, `dilutionAt` is
`wait * rate` (0.004/s for large, 0.0055/s for standard and for a null
surface, 0.008/s for crushed) clamped to [0, 0.6]; it is 0 at wait 0 for
every class; and for identical positive wait times the large class yields
at most the crushed dilution, strictly less whenever the wait is below
150 s (from 150 s on both classes are clamped to 0.6, so the strict
inequality of the original claim fails there). -/
theorem dilutionAt_spec (w : ℝ) (s : Option IceSurface) :
    0 ≤ dilutionAt w s ∧ dilutionAt w s ≤ 0.6 ∧
    dilutionAt 0 s = 0 ∧
    dilutionAt w (some IceSurface.large) = min 0.6 (max 0 (w * 0.004)) ∧
    dilutionAt w (some IceSurface.standard) = min 0.6 (max 0 (w * 0.0055)) ∧
    dilutionAt w (some IceSurface.crushed) = min 0.6 (max 0 (w * 0.008)) ∧
    dilutionAt w none = min 0.6 (max 0 (w * 0.0055)) ∧
    (0 < w → dilutionAt w (some IceSurface.large) ≤ dilutionAt w (some IceSurface.crushed)) ∧
    (0 < w → w < 150 →
      dilutionAt w (some IceSurface.large) < dilutionAt w (some IceSurface.crushed)) := by
  have hlarge : dilutionAt w (some IceSurface.large) = min 0.6 (max 0 (w * 0.004)) := by
    simp [dilutionAt]
  have hstd : dilutionAt w (some IceSurface.standard) = min 0.6 (max 0 (w * 0.0055)) := by
    simp [dilutionAt]
  have hcrushed : dilutionAt w (some IceSurface.crushed) = min 0.6 (max 0 (w * 0.008)) := by
    simp [dilutionAt]
  have hnone : dilutionAt w none = min 0.6 (max 0 (w * 0.0055)) := by
    simp [dilutionAt]
  refine ⟨?_, ?_, ?_, hlarge, hstd, hcrushed, hnone, ?_, ?_⟩
  · exact le_min (by norm_num) (le_max_left 0 _)
  · exact min_le_left _ _
  · norm_num [dilutionAt]
  · intro hw
    rw [hlarge, hcrushed]
    refine min_le_min le_rfl (max_le_max le_rfl ?_)
    exact mul_le_mul_of_nonneg_left (by norm_num) hw.le
  · intro hw hw150
    rw [hlarge, hcrushed]
    have h4 : (0 : ℝ) ≤ w * 0.004 := by positivity
    have hlt6 : w * 0.004 < 0.6 := by linarith
    rw [max_eq_right h4, min_eq_right hlt6.le]
    refine lt_min hlt6 (lt_of_lt_of_le ?_ (le_max_right 0 _))
    nlinarith

/-- Witness for the amended C5 at wait 100 with standard ice. -/
theorem dilutionAt_spec_witness :
    dilutionAt 100 (some IceSurface.large) ≤ dilutionAt 100 (some IceSurface.crushed) ∧
    dilutionAt 100 (some IceSurface.large) < dilutionAt 100 (some IceSurface.crushed) ∧
    dilutionAt 0 (some IceSurface.standard) = 0 :=
  ⟨(dilutionAt_spec 100 (some IceSurface.standard)).2.2.2.2.2.2.2.1 (by norm_num),
   ((dilutionAt_spec 100 (some IceSurface.standard)).2.2.2.2.2.2.2.2 (by norm_num) (by norm_num)),
   (dilutionAt_spec 0 (some IceSurface.standard)).2.2.1⟩

/-- C6 counterexample: with startTemp -4 below ambient 22, the temperature
at wait 120 is strictly above the one at wait 0, refuting "monotonically
non-increasing in the wait when startTemp < ambient". -/
theorem tempAt_monotone_counterexample :
    ¬ (∀ w1 w2 : ℝ, 0 ≤ w1 → w1 ≤ w2 →
        tempAt w2 (-4) 22 120 ≤ tempAt w1 (-4) 22 120) := by
  intro h
  have h0 := h 0 120 le_rfl (by norm_num)
  have h2 : tempAt 0 (-4) 22 120 < tempAt 120 (-4) 22 120 := by
    simp only [tempAt]
    norm_num
  linarith

/-- C6 (amended): `tempAt 0 T0 ambient τ = T0` for every T0 and ambient
when τ > 0 (the identity needs no relation between T0 and ambient), and
for 0 ≤ w1 ≤ w2, when startTemp < ambient the temperature is monotonically
non-DEcreasing in the wait and stays strictly below ambient (relaxation
toward ambient from below). -/
theorem tempAt_monotone (T0 ambient tau w1 w2 : ℝ) (htau : 0 < tau) :
    tempAt 0 T0 ambient tau = T0 ∧
    (T0 < ambient → 0 ≤ w1 → w1 ≤ w2 →
      tempAt w1 T0 ambient tau ≤ tempAt w2 T0 ambient tau ∧
      tempAt w2 T0 ambient tau < ambient) := by
  refine ⟨tempAt_zero _ _ _, fun hT h1 h12 => ?_⟩
  have hmax1 : max 0 w1 = w1 := max_eq_right h1
  have hmax2 : max 0 w2 = w2 := max_eq_right (le_trans h1 h12)
  constructor
  · simp only [tempAt, hmax1, hmax2]
    have hexp : Real.exp (-w2 / tau) ≤ Real.exp (-w1 / tau) := by
      apply Real.exp_le_exp.mpr
      exact (div_le_div_iff_of_pos_right htau).mpr (by linarith)
    have hmul := mul_le_mul_of_nonpos_left hexp (by linarith : T0 - ambient ≤ 0)
    linarith
  · simp only [tempAt, hmax2]
    have hpos := Real.exp_pos (-w2 / tau)
    nlinarith

/-- Witness for the amended C6: the zero-wait identity both for a start
below ambient (-4 against 22) and for one above ambient (30 against 22),
plus monotonicity at Martini-style parameters with waits 0 and 120. -/
theorem tempAt_monotone_witness :
    tempAt 0 (-4 : ℝ) 22 120 = -4 ∧
    tempAt 0 (30 : ℝ) 22 120 = 30 ∧
    (tempAt 0 (-4 : ℝ) 22 120 ≤ tempAt 120 (-4 : ℝ) 22 120 ∧
      tempAt 120 (-4 : ℝ) 22 120 < 22) :=
  ⟨(tempAt_monotone (-4) 22 120 0 120 (by norm_num)).1,
   (tempAt_monotone 30 22 120 0 120 (by norm_num)).1,
   (tempAt_monotone (-4) 22 120 0 120 (by norm_num)).2
     (by norm_num) (by norm_num) (by norm_num)⟩

theorem finishLe_iff (queue : List Category) (a b : Drink) :
    finishLe queue a b = true ↔
      (finishPriority queue a.category < finishPriority queue b.category ∨
        (finishPriority queue a.category = finishPriority queue b.category ∧
          a.baseFinishSec ≤ b.baseFinishSec)) := by
  unfold finishLe
  by_cases h : finishPriority queue a.category = finishPriority queue b.category
  · simp [h]
  · simp [h]

theorem finishLe_trans (queue : List Category) (a b c : Drink) :
    finishLe queue a b → finishLe queue b c → finishLe queue a c := by
  intro hab hbc
  rw [finishLe_iff] at hab hbc ⊢
  rcases hab with h1 | ⟨h1, h1b⟩ <;> rcases hbc with h2 | ⟨h2, h2b⟩
  · exact Or.inl (lt_trans h1 h2)
  · exact Or.inl (h2 ▸ h1)
  · exact Or.inl (h1 ▸ h2)
  · exact Or.inr ⟨h1.trans h2, le_trans h1b h2b⟩

theorem finishLe_total (queue : List Category) (a b : Drink) :
    finishLe queue a b || finishLe queue b a := by
  rw [Bool.or_eq_true, finishLe_iff, finishLe_iff]
  rcases lt_trichotomy (finishPriority queue a.category) (finishPriority queue b.category)
    with h | h | h
  · exact Or.inl (Or.inl h)
  · rcases le_total a.baseFinishSec b.baseFinishSec with hb | hb
    · exact Or.inl (Or.inr ⟨h, hb⟩)
    · exact Or.inr (Or.inr ⟨h.symm, hb⟩)
  · exact Or.inr (Or.inl h)

theorem insertAll_not_mem (pairs : List (Category × ℕ)) (m0 : Category → Option ℕ)
    (c : Category) (h : ∀ p ∈ pairs, p.1 ≠ c) : insertAll pairs m0 c = m0 c := by
  induction pairs generalizing m0 with
  | nil => rfl
  | cons p rest ih =>
      have hstep : insertAll (p :: rest) m0
          = insertAll rest (fun c2 => if c2 = p.1 then some p.2 else m0 c2) := rfl
      rw [hstep, ih _ (fun q hq => h q (List.mem_cons_of_mem p hq))]
      exact if_neg (fun hc => h p (List.mem_cons_self p rest) hc.symm)

theorem finishPriority_not_mem (queue : List Category) (c : Category) (h : c ∉ queue) :
    finishPriority queue c = 99 := by
  unfold finishPriority queueIndexMap
  rw [insertAll_not_mem]
  · rfl
  · intro p hp
    simp only [List.mem_map] at hp
    obtain ⟨q, hq, rfl⟩ := hp
    have : q.2 ∈ queue := by
      have hg := List.mem_enum_iff_getElem?.mp hq
      exact List.getElem?_mem hg
    exact fun hc => h (hc ▸ this)

/-- C7: `sortByFinishQueue` is a stable sort of its input by primary key
the position of the drink's category in the queue (absent categories get
priority 99 and sort last) and secondary key the nominal finish duration
ascending; drinks sharing both category and finish duration keep their
relative input order. -/
theorem sortByFinishQueue_stable (drinks : List Drink) (queue : List Category) :
    List.Perm (sortByFinishQueue drinks queue) drinks ∧
    List.Pairwise (fun a b =>
      finishPriority queue a.category < finishPriority queue b.category ∨
      (finishPriority queue a.category = finishPriority queue b.category ∧
        a.baseFinishSec ≤ b.baseFinishSec)) (sortByFinishQueue drinks queue) ∧
    (∀ c : Category, c ∉ queue → finishPriority queue c = 99) ∧
    (∀ a b : Drink, a.category = b.category → a.baseFinishSec = b.baseFinishSec →
      List.Sublist [a, b] drinks → List.Sublist [a, b] (sortByFinishQueue drinks queue)) := by
  refine ⟨List.mergeSort_perm drinks (finishLe queue), ?_, finishPriority_not_mem queue, ?_⟩
  · have hs := List.sorted_mergeSort
      (fun a b c => finishLe_trans queue a b c) (fun a b => finishLe_total queue a b) drinks
    exact hs.imp (fun h => (finishLe_iff queue _ _).mp h)
  · intro a b hcat hbase hsub
    apply List.pair_sublist_mergeSort
      (fun a b c => finishLe_trans queue a b c) (fun a b => finishLe_total queue a b)
    · rw [finishLe_iff]
      exact Or.inr ⟨by rw [hcat], le_of_eq hbase⟩
    · exact hsub

/-- Two drinks sharing category and finish duration, for the C7 witness. -/
noncomputable def stableA : Drink :=
  { id := "a", name := "A", category := Category.STRAIGHT_UP, baseFinishSec := 12, startTempC := -4 }

/-- Second drink of the C7 witness pair. -/
noncomputable def stableB : Drink :=
  { id := "b", name := "B", category := Category.STRAIGHT_UP, baseFinishSec := 12, startTempC := -3 }

/-- Witness for C7: the pair keeps its input order through the sort. -/
theorem sortByFinishQueue_stable_witness :
    List.Sublist [stableA, stableB] (sortByFinishQueue [stableA, stableB] recommendedOrder) :=
  (sortByFinishQueue_stable [stableA, stableB] recommendedOrder).2.2.2 stableA stableB
    rfl rfl (List.Sublist.refl _)

theorem extractById_eq_some (id : String) (l : List Drink) (d : Drink) (rest : List Drink)
    (h : extractById id l = some (d, rest)) :
    ∃ l1 l2, l = l1 ++ d :: l2 ∧ rest = l1 ++ l2 := by
  induction l generalizing d rest with
  | nil => simp [extractById] at h
  | cons a tl ih =>
      simp only [extractById] at h
      split at h
      · simp only [Option.some.injEq, Prod.mk.injEq] at h
        exact ⟨[], tl, by simp [h.1], by simp [h.2]⟩
      · split at h
        · exact absurd h (by simp)
        · rename_i x l2 heq
          simp only [Option.some.injEq, Prod.mk.injEq] at h
          obtain ⟨rfl, rfl⟩ := h
          obtain ⟨l1, l3, rfl, rfl⟩ := ih _ _ heq
          exact ⟨a :: l1, l3, by simp, by simp⟩

theorem extractById_none (id : String) (l : List Drink) (h : ∀ d ∈ l, d.id ≠ id) :
    extractById id l = none := by
  induction l with
  | nil => rfl
  | cons a tl ih =>
      have ha : ¬ ((a.id == id) = true) := by
        simp only [beq_iff_eq]
        exact h a (List.mem_cons_self a tl)
      simp only [extractById, if_neg ha, ih (fun x hx => h x (List.mem_cons_of_mem a hx))]

theorem evaluateDrink_drink (d : Drink) (w : ℝ) : (evaluateDrink d w).drink = d := by
  cases hcat : d.category <;> simp [evaluateDrink, hcat]

theorem finishById_found (s : RoundState) (id : String) (d : Drink) (rest : List Drink)
    (h : extractById id s.remaining = some (d, rest)) :
    (finishById s id).remaining = rest ∧
    (finishById s id).clock = s.clock + d.baseFinishSec ∧
    (finishById s id).timeline = s.timeline ++
      [{ drink := (evaluateDrink d s.clock).drink, finishedAt := s.clock + d.baseFinishSec,
         waitSec := s.clock, tempC := (evaluateDrink d s.clock).tempC,
         dilution := (evaluateDrink d s.clock).dilution,
         penalties := (evaluateDrink d s.clock).penalties }] := by
  unfold finishById
  rw [h]
  by_cases hre : rest.isEmpty <;> simp [hre]

theorem finishById_not_found (s : RoundState) (id : String)
    (h : extractById id s.remaining = none) : finishById s id = s := by
  unfold finishById
  rw [h]

theorem finishById_clock_le (s : RoundState) (id : String)
    (hpos : ∀ d ∈ s.remaining, 0 ≤ d.baseFinishSec) : s.clock ≤ (finishById s id).clock := by
  cases hx : extractById id s.remaining with
  | none => rw [finishById_not_found s id hx]
  | some pr =>
      obtain ⟨d, rest⟩ := pr
      rw [(finishById_found s id d rest hx).2.1]
      have hd : d ∈ s.remaining := by
        obtain ⟨l1, l2, hl, -⟩ := extractById_eq_some id s.remaining d rest hx
        rw [hl]
        simp
      linarith [hpos d hd]

theorem finishById_remaining_subset (s : RoundState) (id : String) :
    ∀ d ∈ (finishById s id).remaining, d ∈ s.remaining := by
  intro x hx
  cases he : extractById id s.remaining with
  | none => rw [finishById_not_found s id he] at hx; exact hx
  | some pr =>
      obtain ⟨d, rest⟩ := pr
      rw [(finishById_found s id d rest he).1] at hx
      obtain ⟨l1, l2, hl, hr⟩ := extractById_eq_some id s.remaining d rest he
      rw [hr] at hx
      rw [hl]
      rcases List.mem_append.mp hx with hxx | hxx
      · exact List.mem_append.mpr (Or.inl hxx)
      · exact List.mem_append.mpr (Or.inr (List.mem_cons_of_mem d hxx))

theorem foldl_finishById_clock_le (ids : List String) (s : RoundState)
    (hpos : ∀ d ∈ s.remaining, 0 ≤ d.baseFinishSec) :
    s.clock ≤ (ids.foldl finishById s).clock := by
  induction ids generalizing s with
  | nil => simp
  | cons id rest ih =>
      rw [List.foldl_cons]
      refine le_trans (finishById_clock_le s id hpos) (ih _ ?_)
      exact fun d hd => hpos d (finishById_remaining_subset s id d hd)

/-- C8: the simulated clock is monotonically non-decreasing: a finish action
on a state whose remaining drinks have nonnegative finish durations moves
exactly one drink from remaining to the end of the timeline, advances the
clock by exactly that drink's finish duration, and never decreases the
clock, across any sequence of finish actions. -/
theorem finishById_clock_monotone (s : RoundState) (id : String) (ids : List String)
    (hpos : ∀ d ∈ s.remaining, 0 ≤ d.baseFinishSec) :
    (∀ d rest, extractById id s.remaining = some (d, rest) →
      (finishById s id).remaining = rest ∧
      s.remaining.length = rest.length + 1 ∧
      (∃ f, (finishById s id).timeline = s.timeline ++ [f] ∧ f.drink = d ∧
        f.waitSec = s.clock ∧ f.finishedAt = s.clock + d.baseFinishSec) ∧
      (finishById s id).clock = s.clock + d.baseFinishSec) ∧
    s.clock ≤ (finishById s id).clock ∧
    s.clock ≤ (ids.foldl finishById s).clock := by
  refine ⟨?_, finishById_clock_le s id hpos, foldl_finishById_clock_le ids s hpos⟩
  intro d rest h
  obtain ⟨hrem, hclock, htl⟩ := finishById_found s id d rest h
  refine ⟨hrem, ?_, ?_, hclock⟩
  · obtain ⟨l1, l2, hl, hr⟩ := extractById_eq_some id s.remaining d rest h
    rw [hl, hr]
    simp
    omega
  · exact ⟨_, htl, evaluateDrink_drink d s.clock, rfl, rfl⟩

/-- A one-drink running state for the state-machine witnesses. -/
noncomputable def sampleState : RoundState :=
  { phase := Phase.RUNNING, queue := [], clock := 0, remaining := [stableA],
    timeline := [], result := none }

/-- Witness for C8: finishing the only drink never decreases the clock. -/
theorem finishById_clock_monotone_witness :
    sampleState.clock ≤ (finishById sampleState "a").clock :=
  (finishById_clock_monotone sampleState "a" [] (by
    intro d hd
    simp only [sampleState, List.mem_singleton] at hd
    subst hd
    norm_num [stableA])).2.1

/-- C9: a finish action whose drink id is not among the remaining drinks is
a no-op: the whole round state (phase, queue, clock, remaining, timeline,
result) is returned unchanged. -/
theorem finishById_missing_id_noop (s : RoundState) (id : String)
    (h : ∀ d ∈ s.remaining, d.id ≠ id) : finishById s id = s :=
  finishById_not_found s id (extractById_none id s.remaining h)

/-- Witness for C9: an unknown id leaves the sample state untouched. -/
theorem finishById_missing_id_noop_witness :
    finishById sampleState "zzz" = sampleState :=
  finishById_missing_id_noop sampleState "zzz" (by
    intro d hd
    simp only [sampleState, List.mem_singleton] at hd
    subst hd
    simp [stableA])

theorem evaluateDrink_shape (d : Drink) (w : ℝ) :
    (evaluateDrink d w).penalties.length ≤ 1 ∧
    (d.category = Category.ON_THE_ROCKS → (evaluateDrink d w).penalties.length = 1) ∧
    ((evaluateDrink d w).dilution.isSome ↔ d.category = Category.ON_THE_ROCKS) ∧
    (d.category = Category.ON_THE_ROCKS → (evaluateDrink d w).tempC = d.startTempC) := by
  cases hcat : d.category
  case STRAIGHT_UP =>
    by_cases hc : 0 < tempAt w d.startTempC 22 120 <;> simp [evaluateDrink, hcat, hc]
  case ON_THE_ROCKS => simp [evaluateDrink, hcat]
  case NON_CHILLED =>
    by_cases hc : 12 < tempAt w d.startTempC 22 240 <;> simp [evaluateDrink, hcat, hc]

theorem simStep_shape (c : ℝ) (d : Drink) :
    (simStep c d).drink = d ∧
    (simStep c d).penalties.length ≤ 1 ∧
    (d.category = Category.ON_THE_ROCKS → (simStep c d).penalties.length = 1) ∧
    ((simStep c d).dilution.isSome ↔ d.category = Category.ON_THE_ROCKS) ∧
    (d.category = Category.ON_THE_ROCKS → (simStep c d).tempC = d.startTempC) := by
  cases hcat : d.category
  case STRAIGHT_UP =>
    by_cases hc : 0 < tempAt c d.startTempC 22 120 <;> simp [simStep, hcat, hc]
  case ON_THE_ROCKS => simp [simStep, hcat]
  case NON_CHILLED =>
    by_cases hc : 12 < tempAt c d.startTempC 22 240 <;> simp [simStep, hcat, hc]

theorem mem_simulateFinish (ds : List Drink) (f : FinishedDrink)
    (hf : f ∈ (simulateFinish ds).finished) : ∃ c d, d ∈ ds ∧ f = simStep c d := by
  have hmem : f ∈ simulateFinishAux 0 ds := by simpa [simulateFinish] using hf
  clear hf
  suffices haux : ∀ (c : ℝ) (l : List Drink), f ∈ simulateFinishAux c l →
      ∃ c2 d, d ∈ l ∧ f = simStep c2 d from haux 0 ds hmem
  intro c l
  induction l generalizing c with
  | nil => intro h; simp [simulateFinishAux] at h
  | cons d rest ih =>
      intro h
      simp only [simulateFinishAux, List.mem_cons] at h
      rcases h with h | h
      · exact ⟨c, d, List.mem_cons_self d rest, h⟩
      · obtain ⟨c2, d2, hd2, hf2⟩ := ih (c + d.baseFinishSec) h
        exact ⟨c2, d2, List.mem_cons_of_mem d hd2, hf2⟩

/-- C10 (implicit): the per-drink evaluation emits at most one penalty
entry — exactly one (possibly of zero magnitude) for ON_THE_ROCKS drinks
and zero or one otherwise; the dilution field is set if and only if the
category is ON_THE_ROCKS; and ON_THE_ROCKS drinks report their starting
temperature unchanged. This holds both for `evaluateDrink` and for every
record `simulateFinish` produces. -/
theorem evaluateDrink_penalty_shape (d : Drink) (w : ℝ) (ds : List Drink) (f : FinishedDrink)
    (hf : f ∈ (simulateFinish ds).finished) :
    (evaluateDrink d w).penalties.length ≤ 1 ∧
    (d.category = Category.ON_THE_ROCKS → (evaluateDrink d w).penalties.length = 1) ∧
    ((evaluateDrink d w).dilution.isSome ↔ d.category = Category.ON_THE_ROCKS) ∧
    (d.category = Category.ON_THE_ROCKS → (evaluateDrink d w).tempC = d.startTempC) ∧
    f.penalties.length ≤ 1 ∧
    (f.drink.category = Category.ON_THE_ROCKS → f.penalties.length = 1) ∧
    (f.dilution.isSome ↔ f.drink.category = Category.ON_THE_ROCKS) ∧
    (f.drink.category = Category.ON_THE_ROCKS → f.tempC = f.drink.startTempC) := by
  obtain ⟨he1, he2, he3, he4⟩ := evaluateDrink_shape d w
  obtain ⟨c, d2, hd2, rfl⟩ := mem_simulateFinish ds f hf
  obtain ⟨hs0, hs1, hs2, hs3, hs4⟩ := simStep_shape c d2
  refine ⟨he1, he2, he3, he4, hs1, ?_, ?_, ?_⟩
  · rw [hs0]; exact hs2
  · rw [hs0]; exact hs3
  · rw [hs0]; exact hs4

/-- An on-the-rocks drink (the catalog's Whiskey Highball), for the C10
witness. -/
noncomputable def sampleRocks : Drink :=
  { id := "4", name := "Whiskey Highball", category := Category.ON_THE_ROCKS, baseFinishSec := 8,
    startTempC := 0, idealDilution := some 0.33, iceSurface := some IceSurface.standard }

/-- Witness for C10 on a one-drink simulation of the sample rocks drink. -/
theorem evaluateDrink_penalty_shape_witness :
    ((evaluateDrink sampleRocks 0).dilution.isSome ↔
      sampleRocks.category = Category.ON_THE_ROCKS) ∧
    (simStep 0 sampleRocks).penalties.length ≤ 1 :=
  have hm : simStep 0 sampleRocks ∈ (simulateFinish [sampleRocks]).finished := by
    simp [simulateFinish, simulateFinishAux]
  ⟨(evaluateDrink_penalty_shape sampleRocks 0 [sampleRocks] (simStep 0 sampleRocks) hm).2.2.1,
   (evaluateDrink_penalty_shape sampleRocks 0 [sampleRocks] (simStep 0 sampleRocks) hm).2.2.2.2.1⟩

/-- Witness for C3 at a concrete inverted queue. -/
theorem orderPenalty_spec_witness :
    orderPenalty recommendedOrder [Category.STRAIGHT_UP, Category.NON_CHILLED]
      = 6 * (specInversions [Category.STRAIGHT_UP, Category.NON_CHILLED] : ℝ) :=
  (orderPenalty_spec [Category.STRAIGHT_UP, Category.NON_CHILLED]).1
